import Mathlib

/-
  Verification of the hello-fresh-scrape recipe extraction pipeline
  (package recipe + command main) against its specification.

  The development shallowly embeds the Go source:
  - the Document Scanner (parseRecipeProps) as a function over the token
    stream produced by the html tokenizer,
  - the Payload Navigator (the query loop of ScrapeRecipes) as a function
    over the decoded envelope, with the generic JSON decoder for the inner
    data field passed as an explicit parameter (it is library code, not
    code of this repository),
  - the Recipe data model field-for-field,
  - the Yield Resolver (YieldIDsToNames / ingredientName).

  Go specifics reflected in the embedding:
  - machine integers of the model never overflow here (no arithmetic is
    performed on them); int is modelled as Int, float64 as Lean Float
    carried through opaquely (the code never computes with amounts),
    time.Time as an abstract instant.
  - YieldIDsToNames mutates the batch in place: the range variables r and
    ys are struct copies, but their slice fields alias the original
    backing arrays, so the write ys.Ingredients[i].ID = name is visible in
    the caller batch. The embedding therefore returns the final state of
    the batch next to the error value, including the partially rewritten
    state left behind when a lookup fails.
  - indexing a slice out of range panics at runtime instead of returning
    an error; the result type of the Navigator has a separate constructor for
    that outcome.
-/

/-! ## Document Scanner: token-level embedding of parseRecipeProps

The golang.org/x/net/html tokenizer turns the byte stream into a sequence
of tokens; parseRecipeProps only observes that sequence through z.Next,
z.TagName, z.TagAttr, z.Text and z.Err. We embed the token sequence as a
list. A real tokenizer run is always terminated by an ErrorToken (at end
of input z.Next yields ErrorToken with z.Err() = io.EOF, forever), so
streams of interest contain an errorToken; the embedding keeps the
end-of-list case to model the return statement that follows the loop in
the source. -/

/-- One key=value attribute of a start tag, as yielded by z.TagAttr. -/
structure TagAttr where
  key : String
  val : String
  deriving DecidableEq, Repr

/-- The token kinds of the html tokenizer that parseRecipeProps switches on.
Tag names and attributes are already extracted, mirroring z.TagName and
z.TagAttr. -/
inductive HTMLToken where
  | errorToken (e : String)
  | textToken (txt : String)
  | startTagToken (name : String) (attrs : List TagAttr)
  | endTagToken (name : String)
  | selfClosingTagToken (name : String) (attrs : List TagAttr)
  | commentToken (txt : String)
  | doctypeToken (txt : String)
  deriving DecidableEq, Repr

/-- Outcomes of parseRecipeProps: the tokenizer error propagated as-is by
the line return nil, z.Err(), or the distinct error value
"recipe props data not found" constructed after the loop. -/
inductive ScanError where
  | streamError (e : String)
  | notFound
  deriving DecidableEq, Repr

/-- The attribute inspection on a start tag, from the body of the
StartTagToken case of parseRecipeProps: the tag must be script with at
least one attribute, the first attribute must be id="__NEXT_DATA__", a
second attribute must exist and be type="application/json". -/
def isSentinelScript (tn : String) (attrs : List TagAttr) : Bool :=
  tn == "script" &&
    match attrs with
    | [] => false
    | a1 :: rest =>
      a1.key == "id" && a1.val == "__NEXT_DATA__" &&
        match rest with
        | [] => false
        | a2 :: _ => a2.key == "type" && a2.val == "application/json"

/-- The scanning loop of parseRecipeProps over the remaining token stream,
with the isRecipeProps flag as explicit state. The end-of-list case
corresponds to the statement after the for loop in the source
(return nil, errors.New("recipe props data not found")); on a real
tokenizer stream the loop is only left through the ErrorToken or armed
TextToken cases. -/
def scanTokens : List HTMLToken → Bool → Except ScanError String
  | [], _ => .error .notFound
  | tok :: rest, isRecipeProps =>
    match tok with
    | .errorToken e => .error (.streamError e)
    | .textToken txt =>
      if isRecipeProps then .ok txt else scanTokens rest isRecipeProps
    | .startTagToken tn attrs =>
      scanTokens rest (isRecipeProps || isSentinelScript tn attrs)
    | _ => scanTokens rest isRecipeProps

/-- parseRecipeProps on a tokenized document, starting unarmed. -/
def parseRecipeProps (toks : List HTMLToken) : Except ScanError String :=
  scanTokens toks false

/-- A token that neither terminates the scan nor arms it: not an error
token, and not a sentinel-matching script start tag. Text tokens are
allowed here; while unarmed the scan skips them. -/
def neutralToken : HTMLToken → Bool
  | .errorToken _ => false
  | .startTagToken tn attrs => !(isSentinelScript tn attrs)
  | _ => true

/-- A token that an armed scan passes over: neither an error token nor a
text token. -/
def armedSkipToken : HTMLToken → Bool
  | .errorToken _ => false
  | .textToken _ => false
  | _ => true

/-- A document with no sentinel script element, tokenized: the stream ends
with the end-of-input error token of the tokenizer. -/
def noSentinelDoc : List HTMLToken :=
  [.startTagToken "p" [], .textToken "hi", .endTagToken "p", .errorToken "EOF"]

/-- A document whose script element carries both sentinel attributes but in
the reverse order: type before id. -/
def reversedAttrsDoc : List HTMLToken :=
  [.startTagToken "script"
      [{ key := "type", val := "application/json" },
       { key := "id", val := "__NEXT_DATA__" }],
   .textToken "X",
   .errorToken "EOF"]

/-! ## Recipe data model

Field-for-field translation of the entity structs of package recipe.
Go int becomes Int, float64 becomes Float (carried through, never
computed with), time.Time becomes an abstract instant, map[string]int
becomes an association list. -/

/-- time.Time, modelled as an abstract instant; the scraper only carries
these values through. -/
structure GoTime where
  instant : Int
  deriving DecidableEq, Repr

structure Category where
  ID : String
  «Type» : String
  Name : String
  Slug : String
  IconLink : String
  IconPath : String
  Usage : Int

structure Nutrition where
  «Type» : String
  Name : String
  Amount : Float
  Unit : String

structure IngredientFamily where
  ID : String
  «Type» : String
  Description : String
  Priority : Int
  IconLink : String
  IconPath : String
  UsageByCountry : List (String × Int)
  CreatedAt : GoTime
  UpdatedAt : GoTime
  UUID : String
  Name : String
  Slug : String

structure Ingredient where
  Country : String
  ID : String
  «Type» : String
  Name : String
  Slug : String
  Description : String
  InternalName : String
  Shipped : Bool
  ImageLink : String
  ImagePath : String
  Usage : Int
  HasDuplicatedName : Bool
  Allergens : List String
  Family : IngredientFamily
  UUID : String

structure Allergen where
  ID : String
  «Type» : String
  Description : String
  TracesOf : Bool
  TriggersTracesOf : Bool
  IconLink : String
  IconPath : String
  Usage : Int
  Name : String
  Slug : String

structure Utensil where
  ID : String
  «Type» : String
  Name : String

structure Tag where
  ID : String
  «Type» : String
  IconLink : String
  IconPath : String
  NumberOfRecipes : Int
  NumberOfRecipesByCountry : List (String × Int)
  ColorHandle : String
  Preferences : List String
  Name : String
  Slug : String
  DisplayLabel : Bool

structure Cuisine where
  ID : String
  «Type» : String
  IconLink : String
  IconPath : String
  Usage : Int
  Name : String
  Slug : String

/-- One entry of the ingredient table of a Yield. ID is the two-phase field:
an ingredient identifier before resolution, the resolved display name
after. -/
structure IngredientYield where
  ID : String
  Amount : Float
  Unit : String

structure Yield where
  Yields : Int
  Ingredients : List IngredientYield

structure Recipe where
  ID : String
  Country : String
  Name : String
  SeoName : String
  Category : Category
  Slug : String
  Headline : String
  Description : String
  DescriptionHTML : String
  DescriptionMarkdown : String
  SeoDescription : String
  Comment : String
  Difficulty : Int
  PrepTime : String
  TotalTime : String
  ServingSize : Int
  CreatedAt : GoTime
  UpdatedAt : GoTime
  Link : String
  ImageLink : String
  ImagePath : String
  CardLink : String
  VideoLink : String
  Nutrition : List Nutrition
  Ingredients : List Ingredient
  Allergens : List Allergen
  Utensils : List Utensil
  Tags : List Tag
  Cuisines : List Cuisine
  Yields : List Yield

/-- type Recipes []Recipe -/
abbrev Recipes := List Recipe

/-! ## Payload Navigator: the envelope and the query loop of ScrapeRecipes

The envelope struct payload is the fixed nested path
Props.PageProps.SSRPayload.DehydratedState.Queries; each query entry
holds State.Data, a json.RawMessage (raw bytes, here a list of
characters). The generic JSON decoding of one Data value into the struct
data { Items []Recipe } is performed by encoding/json, library code
outside this repository: the embedding takes that decoder as an explicit
parameter um (for unmarshal) and only fixes the control flow of the
query loop, which is the code under verification. -/

/-- json.RawMessage: the raw bytes of a data field. -/
abbrev RawMessage := List Char

structure QueryState where
  Data : RawMessage
  deriving DecidableEq, Repr

structure PayloadQuery where
  State : QueryState
  deriving DecidableEq, Repr

structure PayloadDehydratedState where
  Queries : List PayloadQuery
  deriving DecidableEq, Repr

structure PayloadSSR where
  DehydratedState : PayloadDehydratedState
  deriving DecidableEq, Repr

structure PayloadPageProps where
  SSRPayload : PayloadSSR
  deriving DecidableEq, Repr

structure PayloadProps where
  PageProps : PayloadPageProps
  deriving DecidableEq, Repr

/-- The envelope struct payload. -/
structure payload where
  Props : PayloadProps
  deriving DecidableEq, Repr

/-- The struct data into which an object-shaped query Data value is
decoded. -/
structure data where
  Items : List Recipe

/-- A decoder for one query Data value, standing for
json.Unmarshal(q.State.Data, &d) with d of type data; deterministic in
the bytes, as encoding/json is. -/
abbrev DataDecoder := RawMessage → Except String data

/-- Outcome of the query loop: the recipes on success, a returned error,
or a runtime panic (an out-of-range slice index in Go does not return an
error). -/
inductive ScrapeResult where
  | ok (rs : Recipes)
  | err (e : String)
  | panics (msg : String)

/-- The query loop of ScrapeRecipes (the for over
p.Props.PageProps.SSRPayload.DehydratedState.Queries): first-byte filter
on index 0 of q.State.Data with no length guard, fatal per-query decode
error, append of d.Items when non-empty. -/
def scrapeQueries (um : DataDecoder) : List PayloadQuery → ScrapeResult
  | [] => .ok []
  | q :: qs =>
    match q.State.Data with
    | [] => .panics "runtime error: index out of range [0] with length 0"
    | b :: _ =>
      if b == '{' then
        match um q.State.Data with
        | .error e => .err e
        | .ok d =>
          match scrapeQueries um qs with
          | .ok rs => .ok (if d.Items.length > 0 then d.Items ++ rs else rs)
          | r => r
      else scrapeQueries um qs

/-- ScrapeRecipes on an already fetched, scanned and envelope-decoded
payload: the HTTP GET, parseRecipeProps and the envelope unmarshal that
precede the loop in the source are I/O and library code; the loop over
the queries (the Payload Navigator proper) is what runs here. -/
def ScrapeRecipes (um : DataDecoder) (p : payload) : ScrapeResult :=
  scrapeQueries um p.Props.PageProps.SSRPayload.DehydratedState.Queries

/-- Wrap a query list in the fixed envelope path. -/
def mkPayload (qs : List PayloadQuery) : payload :=
  { Props := { PageProps := { SSRPayload := { DehydratedState := { Queries := qs } } } } }

/-- The query list at the fixed envelope path, as ranged over by the
loop. -/
def queriesOf (p : payload) : List PayloadQuery :=
  p.Props.PageProps.SSRPayload.DehydratedState.Queries

/-- The first-byte filter of the loop as a predicate on a query entry:
its Data starts with the object-opening byte. -/
def objShaped (q : PayloadQuery) : Bool :=
  match q.State.Data with
  | [] => false
  | b :: _ => b == '{'

/-- The Items list a query entry contributes under decoder um (empty when
the decoder fails; only used in statements under a hypothesis that it
succeeds). -/
def decodedItems (um : DataDecoder) (q : PayloadQuery) : List Recipe :=
  match um q.State.Data with
  | .ok d => d.Items
  | .error _ => []

/-! ## Yield Resolver: YieldIDsToNames and ingredientName

The Go method walks the batch in place. Each function below returns the
error outcome of its stage next to the final state of the data it
walked, reflecting the in-place writes: when a lookup fails, everything
already processed stays rewritten and everything at or after the failure
point stays untouched. -/

/-- ingredientName: linear scan of the ingredient list, first match wins;
the error text is fmt.Sprintf("id %s not found in ingredients list", id)
with the looked-up id interpolated. -/
def ingredientName (id : String) (ingreds : List Ingredient) : Except String String :=
  match ingreds with
  | [] => .error ("id " ++ id ++ " not found in ingredients list")
  | ingred :: rest =>
    if id == ingred.ID then .ok ingred.Name else ingredientName id rest

/-- The innermost loop of YieldIDsToNames over the entries of one yield: the
ID of each entry is looked up in the ingredient list of the owning recipe and
overwritten with the name; on the first failing lookup the loop stops,
leaving the failing entry and its successors untouched. -/
def resolveIngredientYields (ingreds : List Ingredient) :
    List IngredientYield → Option String × List IngredientYield
  | [] => (none, [])
  | iy :: rest =>
    match ingredientName iy.ID ingreds with
    | .error e => (some e, iy :: rest)
    | .ok name =>
      let res := resolveIngredientYields ingreds rest
      (res.1, { iy with ID := name } :: res.2)

/-- The middle loop of YieldIDsToNames over the yields of one recipe. -/
def resolveYields (ingreds : List Ingredient) :
    List Yield → Option String × List Yield
  | [] => (none, [])
  | y :: rest =>
    let resIngs := resolveIngredientYields ingreds y.Ingredients
    match resIngs.1 with
    | some e => (some e, { y with Ingredients := resIngs.2 } :: rest)
    | none =>
      let res := resolveYields ingreds rest
      (res.1, { y with Ingredients := resIngs.2 } :: res.2)

/-- YieldIDsToNames: the outer loop over the batch. First component is
the returned error (none on success), second is the state the batch is
left in. -/
def YieldIDsToNames : Recipes → Option String × Recipes
  | [] => (none, [])
  | r :: rest =>
    let resYs := resolveYields r.Ingredients r.Yields
    match resYs.1 with
    | some e => (some e, { r with Yields := resYs.2 } :: rest)
    | none =>
      let res := YieldIDsToNames rest
      (res.1, { r with Yields := resYs.2 } :: res.2)

/-- The rewriting of one entry on the success path, for specification:
ID replaced by the name found for it (identity when the lookup fails). -/
def resolveEntry (ingreds : List Ingredient) (iy : IngredientYield) : IngredientYield :=
  match ingredientName iy.ID ingreds with
  | .ok name => { iy with ID := name }
  | .error _ => iy

/-- The per-recipe resolution on the success path, for specification:
only fields of the recipe itself enter. -/
def resolveRecipe (r : Recipe) : Recipe :=
  { r with Yields := (resolveYields r.Ingredients r.Yields).2 }

/-! ## Concrete sample data

Small batches and envelopes used to instantiate the theorems below; they
realize the scenarios of the testable properties of the specification. -/

def emptyFamily : IngredientFamily :=
  { ID := "", «Type» := "", Description := "", Priority := 0, IconLink := "",
    IconPath := "", UsageByCountry := [], CreatedAt := { instant := 0 },
    UpdatedAt := { instant := 0 }, UUID := "", Name := "", Slug := "" }

/-- An ingredient record carrying just an identifier and a display name. -/
def ingredientRec (id name : String) : Ingredient :=
  { Country := "", ID := id, «Type» := "", Name := name, Slug := "",
    Description := "", InternalName := "", Shipped := false, ImageLink := "",
    ImagePath := "", Usage := 0, HasDuplicatedName := false, Allergens := [],
    Family := emptyFamily, UUID := "" }

/-- A yield entry with the given reference, amount and unit. -/
def iyRec (id : String) (amount : Float) (u : String) : IngredientYield :=
  { ID := id, Amount := amount, Unit := u }

def emptyCategory : Category :=
  { ID := "", «Type» := "", Name := "", Slug := "", IconLink := "",
    IconPath := "", Usage := 0 }

/-- A recipe with every field at its zero value. -/
def recipeBase : Recipe :=
  { ID := "", Country := "", Name := "", SeoName := "",
    Category := emptyCategory, Slug := "", Headline := "", Description := "",
    DescriptionHTML := "", DescriptionMarkdown := "", SeoDescription := "",
    Comment := "", Difficulty := 0, PrepTime := "", TotalTime := "",
    ServingSize := 0, CreatedAt := { instant := 0 },
    UpdatedAt := { instant := 0 }, Link := "", ImageLink := "",
    ImagePath := "", CardLink := "", VideoLink := "", Nutrition := [],
    Ingredients := [], Allergens := [], Utensils := [], Tags := [],
    Cuisines := [], Yields := [] }

/-- Recipe A of the scoping scenario: ingredient i1 named Egg, one yield
referencing i1. -/
def recipeA : Recipe :=
  { recipeBase with
    ID := "A",
    Ingredients := [ingredientRec "i1" "Egg"],
    Yields := [{ Yields := 2, Ingredients := [iyRec "i1" 2.0 "pcs"] }] }

/-- Recipe B of the scoping scenario: the same ingredient identifier i1
but named Milk. -/
def recipeB : Recipe :=
  { recipeBase with
    ID := "B",
    Ingredients := [ingredientRec "i1" "Milk"],
    Yields := [{ Yields := 4, Ingredients := [iyRec "i1" 1.0 "l"] }] }

def scopeBatch : Recipes := [recipeA, recipeB]

/-- The state scopeBatch is left in after a successful resolution pass:
each yield entry now carries the name its owning recipe gives i1. -/
def scopeBatchResolved : Recipes :=
  [{ recipeA with Yields := [{ Yields := 2, Ingredients := [iyRec "Egg" 2.0 "pcs"] }] },
   { recipeB with Yields := [{ Yields := 4, Ingredients := [iyRec "Milk" 1.0 "l"] }] }]

/-- The bytes of the object-shaped data value of the synthetic envelope. -/
def objBytes : RawMessage := ['{', '}']

def qObj : PayloadQuery := { State := { Data := objBytes } }

def qArr : PayloadQuery := { State := { Data := "[]".toList } }

def qNull : PayloadQuery := { State := { Data := "null".toList } }

def qStr : PayloadQuery := { State := { Data := "\"x\"".toList } }

/-- A query entry whose data field is absent/zero-length. -/
def qEmpty : PayloadQuery := { State := { Data := [] } }

/-- The synthetic envelope of the first-byte filter property of the
specification: data values of object, array, null and string shape. -/
def demoQueries : List PayloadQuery := [qObj, qArr, qNull, qStr]

def demoPayload : payload := mkPayload demoQueries

def demoData : data := { Items := [recipeA, recipeB] }

/-- A decoder that decodes the object-shaped entry into two recipes and
rejects everything else, standing for encoding/json on the synthetic
envelope. -/
def um0 : DataDecoder := fun bs =>
  if bs = objBytes then .ok demoData
  else .error "json: cannot unmarshal value into Go struct field data.Items"

/-- A decoder that fails on every value: every object-shaped entry is a
shape violation under it. -/
def um1 : DataDecoder := fun _ =>
  .error "json: cannot unmarshal object into Go struct field data.Items"

/-! ## Specification predicates and remaining sample inputs -/

/-- Frame relation between a yield entry and its state after the pass:
only ID may differ. -/
def entryFramePred (iy iy2 : IngredientYield) : Prop :=
  iy2 = { iy with ID := iy2.ID }

/-- Frame relation between a yield and its state after the pass: only the
ID fields of the entries may differ. -/
def yieldFramePred (y y2 : Yield) : Prop :=
  y2 = { y with Ingredients := y2.Ingredients } ∧
    List.Forall₂ entryFramePred y.Ingredients y2.Ingredients

/-- Frame relation between a recipe and its state after the pass: only the
yield ID fields of the entries may differ. -/
def recipeFramePred (r r2 : Recipe) : Prop :=
  r2 = { r with Yields := r2.Yields } ∧
    List.Forall₂ yieldFramePred r.Yields r2.Yields

/-- Tokens ahead of the sentinel in the sample document: a text node and a
script element with different attributes. -/
def c2DemoPre : List HTMLToken :=
  [.textToken "early",
   .startTagToken "script" [{ key := "src", val := "app.js" }]]

/-- Non-text tokens between the sentinel start tag and its text content in
a sample stream. -/
def c8DemoMid : List HTMLToken := [.commentToken "hydration marker"]

/-! ## Scanner lemmas -/

theorem scanTokens_append_neutral (pre ts : List HTMLToken)
    (h : ∀ t ∈ pre, neutralToken t = true) :
    scanTokens (pre ++ ts) false = scanTokens ts false := by
  induction pre with
  | nil => rfl
  | cons t pre ih =>
    have ht := h t (List.mem_cons_self t pre)
    have hpre : ∀ u ∈ pre, neutralToken u = true :=
      fun u hu => h u (List.mem_cons_of_mem t hu)
    cases t with
    | errorToken e => simp [neutralToken] at ht
    | textToken txt => simpa [scanTokens] using ih hpre
    | startTagToken tn attrs =>
      have hs : isSentinelScript tn attrs = false := by
        simpa [neutralToken] using ht
      simpa [scanTokens, hs] using ih hpre
    | endTagToken n => simpa [scanTokens] using ih hpre
    | selfClosingTagToken n a => simpa [scanTokens] using ih hpre
    | commentToken c => simpa [scanTokens] using ih hpre
    | doctypeToken d => simpa [scanTokens] using ih hpre

theorem scanTokens_append_armedSkip (mid ts : List HTMLToken)
    (h : ∀ t ∈ mid, armedSkipToken t = true) :
    scanTokens (mid ++ ts) true = scanTokens ts true := by
  induction mid with
  | nil => rfl
  | cons t mid ih =>
    have ht := h t (List.mem_cons_self t mid)
    have hmid : ∀ u ∈ mid, armedSkipToken u = true :=
      fun u hu => h u (List.mem_cons_of_mem t hu)
    cases t with
    | errorToken e => simp [armedSkipToken] at ht
    | textToken txt => simp [armedSkipToken] at ht
    | startTagToken tn attrs => simpa [scanTokens] using ih hmid
    | endTagToken n => simpa [scanTokens] using ih hmid
    | selfClosingTagToken n a => simpa [scanTokens] using ih hmid
    | commentToken c => simpa [scanTokens] using ih hmid
    | doctypeToken d => simpa [scanTokens] using ih hmid

theorem scanTokens_arm (tn : String) (attrs : List TagAttr)
    (h : isSentinelScript tn attrs = true) (ts : List HTMLToken) :
    scanTokens (.startTagToken tn attrs :: ts) false = scanTokens ts true := by
  simp [scanTokens, h]

theorem scanTokens_armed_text (s : String) (ts : List HTMLToken) :
    scanTokens (.textToken s :: ts) true = .ok s := by
  simp [scanTokens]

theorem scanTokens_mem_error (toks : List HTMLToken) (armed : Bool) (e : String)
    (h : HTMLToken.errorToken e ∈ toks) :
    scanTokens toks armed ≠ .error .notFound := by
  induction toks generalizing armed with
  | nil => cases h
  | cons t rest ih =>
    cases t with
    | errorToken e2 => simp [scanTokens]
    | textToken txt =>
      have hrest : HTMLToken.errorToken e ∈ rest := by
        rcases List.mem_cons.mp h with h1 | h2
        · cases h1
        · exact h2
      cases armed with
      | true => simp [scanTokens]
      | false => simpa [scanTokens] using ih false hrest
    | startTagToken tn attrs =>
      have hrest : HTMLToken.errorToken e ∈ rest := by
        rcases List.mem_cons.mp h with h1 | h2
        · cases h1
        · exact h2
      simpa [scanTokens] using ih (armed || isSentinelScript tn attrs) hrest
    | endTagToken n =>
      have hrest : HTMLToken.errorToken e ∈ rest := by
        rcases List.mem_cons.mp h with h1 | h2
        · cases h1
        · exact h2
      simpa [scanTokens] using ih armed hrest
    | selfClosingTagToken n a =>
      have hrest : HTMLToken.errorToken e ∈ rest := by
        rcases List.mem_cons.mp h with h1 | h2
        · cases h1
        · exact h2
      simpa [scanTokens] using ih armed hrest
    | commentToken c =>
      have hrest : HTMLToken.errorToken e ∈ rest := by
        rcases List.mem_cons.mp h with h1 | h2
        · cases h1
        · exact h2
      simpa [scanTokens] using ih armed hrest
    | doctypeToken d =>
      have hrest : HTMLToken.errorToken e ∈ rest := by
        rcases List.mem_cons.mp h with h1 | h2
        · cases h1
        · exact h2
      simpa [scanTokens] using ih armed hrest

/-! ## Claim theorems: Document Scanner -/

/-- C1: the spec says a document stream that ends without the sentinel
script element fails with the distinct error "recipe props data not
found", distinguishable from a stream/tokenizer error. The code does not
do this: the for loop is only ever left through its return statements, so
the construction of that error after the loop is unreachable. On any
tokenizer stream (such streams always contain an ErrorToken: at end of
input z.Next yields ErrorToken with z.Err() = io.EOF), the scan never
produces the notFound outcome, and on the concrete sentinel-free document
it returns the propagated stream error io.EOF instead. No partial or
garbage bytes are returned either way, as the result type shows. -/
theorem c1_sentinel_absence_stream_error :
    (∀ (toks : List HTMLToken) (armed : Bool) (e : String),
        HTMLToken.errorToken e ∈ toks →
        scanTokens toks armed ≠ .error .notFound) ∧
    parseRecipeProps noSentinelDoc = .error (.streamError "EOF") :=
  ⟨fun toks armed e h => scanTokens_mem_error toks armed e h, rfl⟩

/-- Witness for C1 at the concrete sentinel-free document. -/
theorem c1_sentinel_absence_witness :
    HTMLToken.errorToken "EOF" ∈ noSentinelDoc ∧
    scanTokens noSentinelDoc false ≠ .error .notFound :=
  ⟨by decide,
   c1_sentinel_absence_stream_error.1 noSentinelDoc false "EOF" (by decide)⟩

/-- C2 counterexample: a document whose sentinel script element carries
id="__NEXT_DATA__" and type="application/json" in the reverse attribute
order is not matched: the scanner never arms, reaches end of input and
returns the stream error instead of the text content "X" of the element.
The clause "in any attribute order or position" is false on the code. -/
theorem c2_any_order_counterexample :
    parseRecipeProps reversedAttrsDoc = .error (.streamError "EOF") ∧
    parseRecipeProps reversedAttrsDoc ≠ .ok "X" :=
  ⟨rfl, fun h => Except.noConfusion h⟩

/-- C2 amended: for every document containing a script element whose
FIRST attribute is id="__NEXT_DATA__" and whose SECOND attribute is
type="application/json" (further attributes may follow), provided no
earlier token is a sentinel-matching script tag or a tokenizer error, the
scanner returns exactly the text content of that element, regardless of
other script elements present before or after it. -/
theorem c2_sentinel_match_first_two_attrs :
    ∀ (pre : List HTMLToken) (extra : List TagAttr) (s : String)
      (rest : List HTMLToken),
      (∀ t ∈ pre, neutralToken t = true) →
      parseRecipeProps
          (pre ++
            HTMLToken.startTagToken "script"
              ({ key := "id", val := "__NEXT_DATA__" } ::
                { key := "type", val := "application/json" } :: extra) ::
            HTMLToken.textToken s :: rest) = .ok s := by
  intro pre extra s rest hpre
  unfold parseRecipeProps
  rw [scanTokens_append_neutral pre _ hpre]
  rw [scanTokens_arm "script"
        ({ key := "id", val := "__NEXT_DATA__" } ::
          { key := "type", val := "application/json" } :: extra) rfl]
  exact scanTokens_armed_text s rest

/-- Witness for the amended C2: other script elements and text precede
the sentinel, an extra attribute follows the two sentinel attributes, and
material follows the payload. -/
theorem c2_sentinel_match_witness :
    (∀ t ∈ c2DemoPre, neutralToken t = true) ∧
    parseRecipeProps
        (c2DemoPre ++
          HTMLToken.startTagToken "script"
            ({ key := "id", val := "__NEXT_DATA__" } ::
              { key := "type", val := "application/json" } ::
              [{ key := "crossorigin", val := "anonymous" }]) ::
          HTMLToken.textToken "PAYLOAD" ::
          [HTMLToken.endTagToken "script", HTMLToken.errorToken "EOF"]) =
      .ok "PAYLOAD" :=
  ⟨by decide,
   c2_sentinel_match_first_two_attrs c2DemoPre
     [{ key := "crossorigin", val := "anonymous" }] "PAYLOAD"
     [HTMLToken.endTagToken "script", HTMLToken.errorToken "EOF"] (by decide)⟩

/-- C8: once armed by a sentinel-matching script start tag, the scan
returns the raw bytes of the very next text token and stops there: tokens
after that text token (rest) cannot influence the result, text tokens in
pre (before arming) are skipped rather than returned, and no search
beyond the immediately following text token happens (mid contains no text
token). -/
theorem c8_armed_returns_next_text :
    ∀ (pre : List HTMLToken) (tn : String) (attrs : List TagAttr)
      (mid : List HTMLToken) (s : String) (rest : List HTMLToken),
      (∀ t ∈ pre, neutralToken t = true) →
      isSentinelScript tn attrs = true →
      (∀ t ∈ mid, armedSkipToken t = true) →
      parseRecipeProps
          (pre ++ HTMLToken.startTagToken tn attrs ::
            (mid ++ HTMLToken.textToken s :: rest)) = .ok s := by
  intro pre tn attrs mid s rest hpre hs hmid
  unfold parseRecipeProps
  rw [scanTokens_append_neutral pre _ hpre]
  rw [scanTokens_arm _ _ hs]
  rw [scanTokens_append_armedSkip mid _ hmid]
  exact scanTokens_armed_text s rest

/-- Witness for C8: a text token sits in pre and is skipped, a comment
sits between the sentinel tag and its text content, and tokens follow the
returned text. -/
theorem c8_armed_returns_next_text_witness :
    (∀ t ∈ c2DemoPre, neutralToken t = true) ∧
    isSentinelScript "script"
      [{ key := "id", val := "__NEXT_DATA__" },
       { key := "type", val := "application/json" }] = true ∧
    (∀ t ∈ c8DemoMid, armedSkipToken t = true) ∧
    parseRecipeProps
        (c2DemoPre ++
          HTMLToken.startTagToken "script"
            [{ key := "id", val := "__NEXT_DATA__" },
             { key := "type", val := "application/json" }] ::
          (c8DemoMid ++ HTMLToken.textToken "NEXTDATA" ::
            [HTMLToken.textToken "ignored", HTMLToken.errorToken "EOF"])) =
      .ok "NEXTDATA" :=
  ⟨by decide, by decide, by decide,
   c8_armed_returns_next_text c2DemoPre "script"
     [{ key := "id", val := "__NEXT_DATA__" },
      { key := "type", val := "application/json" }]
     c8DemoMid "NEXTDATA"
     [HTMLToken.textToken "ignored", HTMLToken.errorToken "EOF"]
     (by decide) (by decide) (by decide)⟩

/-! ## Navigator lemmas -/

@[simp]
theorem objShaped_nil : objShaped { State := { Data := [] } } = false := rfl

@[simp]
theorem objShaped_cons (b : Char) (bs : List Char) :
    objShaped { State := { Data := b :: bs } } = (b == '{') := rfl

theorem ite_append_items (l r : List Recipe) :
    (if l.length > 0 then l ++ r else r) = l ++ r := by
  cases l <;> simp

theorem scrapeQueries_ok (um : DataDecoder) :
    ∀ qs : List PayloadQuery,
      (∀ q ∈ qs, q.State.Data ≠ []) →
      (∀ q ∈ qs, objShaped q = true → ∃ d, um q.State.Data = .ok d) →
      scrapeQueries um qs =
        .ok (((qs.filter objShaped).map (decodedItems um)).flatten) := by
  intro qs
  induction qs with
  | nil => intro _ _; rfl
  | cons q qs ih =>
    intro hne hok
    have hne2 : ∀ u ∈ qs, u.State.Data ≠ [] :=
      fun u hu => hne u (List.mem_cons_of_mem q hu)
    have hok2 : ∀ u ∈ qs, objShaped u = true → ∃ d, um u.State.Data = .ok d :=
      fun u hu => hok u (List.mem_cons_of_mem q hu)
    have hq := hne q (List.mem_cons_self q qs)
    have hobj := hok q (List.mem_cons_self q qs)
    have hrec := ih hne2 hok2
    obtain ⟨⟨qd⟩⟩ := q
    cases qd with
    | nil => simp at hq
    | cons b bs =>
      cases hb : (b == '{') with
      | false =>
        simp [scrapeQueries, hb, List.filter_cons, hrec]
      | true =>
        obtain ⟨d, hd⟩ := hobj (by simp [hb])
        have hd2 : um (b :: bs) = .ok d := hd
        simp [scrapeQueries, hb, hd2, List.filter_cons,
          decodedItems, hrec, ite_append_items]

theorem scrapeQueries_congr (um um2 : DataDecoder) :
    ∀ qs : List PayloadQuery,
      (∀ q ∈ qs, objShaped q = true → um2 q.State.Data = um q.State.Data) →
      scrapeQueries um2 qs = scrapeQueries um qs := by
  intro qs
  induction qs with
  | nil => intro _; rfl
  | cons q qs ih =>
    intro hag
    have hag2 : ∀ u ∈ qs, objShaped u = true → um2 u.State.Data = um u.State.Data :=
      fun u hu => hag u (List.mem_cons_of_mem q hu)
    have hagq := hag q (List.mem_cons_self q qs)
    obtain ⟨⟨qd⟩⟩ := q
    cases qd with
    | nil => simp [scrapeQueries]
    | cons b bs =>
      cases hb : (b == '{') with
      | false => simp [scrapeQueries, hb, ih hag2]
      | true =>
        have heq : um2 (b :: bs) = um (b :: bs) := hagq (by simp [hb])
        simp [scrapeQueries, hb, heq, ih hag2]

theorem scrapeQueries_err (um : DataDecoder) :
    ∀ (pre : List PayloadQuery) (q : PayloadQuery) (rest : List PayloadQuery)
      (e : String),
      (∀ u ∈ pre, u.State.Data ≠ [] ∧
        (objShaped u = true → ∃ d, um u.State.Data = .ok d)) →
      objShaped q = true →
      um q.State.Data = .error e →
      scrapeQueries um (pre ++ q :: rest) = .err e := by
  intro pre
  induction pre with
  | nil =>
    intro q rest e _ hobj herr
    obtain ⟨⟨qd⟩⟩ := q
    cases qd with
    | nil => simp at hobj
    | cons b bs =>
      have hb : (b == '{') = true := by simpa using hobj
      have herr2 : um (b :: bs) = .error e := herr
      simp [scrapeQueries, hb, herr2]
  | cons u pre ih =>
    intro q rest e hpre hobj herr
    have hu := hpre u (List.mem_cons_self u pre)
    have hpre2 : ∀ v ∈ pre, v.State.Data ≠ [] ∧
        (objShaped v = true → ∃ d, um v.State.Data = .ok d) :=
      fun v hv => hpre v (List.mem_cons_of_mem u hv)
    have hrec := ih q rest e hpre2 hobj herr
    obtain ⟨⟨ud⟩⟩ := u
    cases ud with
    | nil => simp at hu
    | cons b bs =>
      cases hb : (b == '{') with
      | false => simpa [scrapeQueries, hb] using hrec
      | true =>
        obtain ⟨d, hd⟩ := hu.2 (by simp [hb])
        have hd2 : um (b :: bs) = .ok d := hd
        simp [scrapeQueries, hb, hd2, hrec]

theorem scrapeQueries_no_panic (um : DataDecoder) :
    ∀ qs : List PayloadQuery,
      (∀ q ∈ qs, q.State.Data ≠ []) →
      ∀ m, scrapeQueries um qs ≠ .panics m := by
  intro qs
  induction qs with
  | nil => intro _ m h; cases h
  | cons q qs ih =>
    intro hne m
    have hne2 : ∀ u ∈ qs, u.State.Data ≠ [] :=
      fun u hu => hne u (List.mem_cons_of_mem q hu)
    have hq := hne q (List.mem_cons_self q qs)
    obtain ⟨⟨qd⟩⟩ := q
    cases qd with
    | nil => simp at hq
    | cons b bs =>
      cases hb : (b == '{') with
      | false => simpa [scrapeQueries, hb] using ih hne2 m
      | true =>
        cases hum : um (b :: bs) with
        | error e => simp [scrapeQueries, hb, hum]
        | ok d =>
          cases hrec : scrapeQueries um qs with
          | ok rs => simp [scrapeQueries, hb, hum, hrec]
          | err e => simp [scrapeQueries, hb, hum, hrec]
          | panics m2 => exact absurd hrec (ih hne2 m2)

theorem scrapeQueries_panic (um : DataDecoder) :
    ∀ (pre : List PayloadQuery) (q : PayloadQuery) (rest : List PayloadQuery),
      (∀ u ∈ pre, u.State.Data ≠ [] ∧
        (objShaped u = true → ∃ d, um u.State.Data = .ok d)) →
      q.State.Data = [] →
      scrapeQueries um (pre ++ q :: rest) =
        .panics "runtime error: index out of range [0] with length 0" := by
  intro pre
  induction pre with
  | nil =>
    intro q rest _ hq
    obtain ⟨⟨qd⟩⟩ := q
    simp only at hq
    subst hq
    rfl
  | cons u pre ih =>
    intro q rest hpre hq
    have hu := hpre u (List.mem_cons_self u pre)
    have hpre2 : ∀ v ∈ pre, v.State.Data ≠ [] ∧
        (objShaped v = true → ∃ d, um v.State.Data = .ok d) :=
      fun v hv => hpre v (List.mem_cons_of_mem u hv)
    have hrec := ih q rest hpre2 hq
    obtain ⟨⟨ud⟩⟩ := u
    cases ud with
    | nil => simp at hu
    | cons b bs =>
      cases hb : (b == '{') with
      | false => simpa [scrapeQueries, hb] using hrec
      | true =>
        obtain ⟨d, hd⟩ := hu.2 (by simp [hb])
        have hd2 : um (b :: bs) = .ok d := hd
        simp [scrapeQueries, hb, hd2, hrec]

/-! ## Claim theorems: Payload Navigator -/

/-- C3: on an envelope whose query data fields are non-empty and whose
object-shaped entries decode, exactly the entries whose raw data begins
with the object-opening byte contribute, in original query order: the
result is the concatenation of their Items lists, its length is the sum
of the lengths of those lists, and entries beginning with any other byte are
never decoded — any decoder agreeing with um on the object-shaped
entries yields the identical result. -/
theorem c3_first_byte_filter :
    ∀ (um um2 : DataDecoder) (p : payload),
      (∀ q ∈ queriesOf p, q.State.Data ≠ []) →
      (∀ q ∈ queriesOf p, objShaped q = true → ∃ d, um q.State.Data = .ok d) →
      ScrapeRecipes um p =
          .ok ((((queriesOf p).filter objShaped).map (decodedItems um)).flatten) ∧
        ((((queriesOf p).filter objShaped).map (decodedItems um)).flatten).length =
          (((queriesOf p).filter objShaped).map
            (fun q => (decodedItems um q).length)).sum ∧
        ((∀ q ∈ queriesOf p, objShaped q = true →
            um2 q.State.Data = um q.State.Data) →
          ScrapeRecipes um2 p = ScrapeRecipes um p) := by
  intro um um2 p h1 h2
  refine ⟨scrapeQueries_ok um (queriesOf p) h1 h2, ?_,
    fun h3 => scrapeQueries_congr um um2 (queriesOf p) h3⟩
  rw [List.length_flatten, List.map_map]
  rfl

/-- Witness for C3 on the synthetic envelope with data values of object,
array, null and string shape: only the two recipes of the object entry come
out. -/
theorem c3_first_byte_filter_witness :
    ScrapeRecipes um0 demoPayload =
        .ok ((((queriesOf demoPayload).filter objShaped).map
          (decodedItems um0)).flatten) ∧
      ScrapeRecipes um0 demoPayload = .ok [recipeA, recipeB] :=
  ⟨(c3_first_byte_filter um0 um0 demoPayload (by decide)
      (by
        intro q hq hobj
        simp only [queriesOf, demoPayload, mkPayload, demoQueries,
          List.mem_cons, List.not_mem_nil, or_false] at hq
        rcases hq with rfl | rfl | rfl | rfl
        · exact ⟨demoData, rfl⟩
        · exact absurd hobj (by decide)
        · exact absurd hobj (by decide)
        · exact absurd hobj (by decide))).1,
   rfl⟩

/-- C7: an object-shaped query entry whose decode fails aborts the whole
extraction: whatever entries precede or follow it, the Navigator returns
the decode error and no recipe list at all. -/
theorem c7_decode_failure_fatal :
    ∀ (um : DataDecoder) (pre : List PayloadQuery) (q : PayloadQuery)
      (rest : List PayloadQuery) (e : String),
      (∀ u ∈ pre, u.State.Data ≠ [] ∧
        (objShaped u = true → ∃ d, um u.State.Data = .ok d)) →
      objShaped q = true →
      um q.State.Data = .error e →
      ScrapeRecipes um (mkPayload (pre ++ q :: rest)) = .err e ∧
        ∀ rs, ScrapeRecipes um (mkPayload (pre ++ q :: rest)) ≠ .ok rs := by
  intro um pre q rest e hpre hobj herr
  have h : ScrapeRecipes um (mkPayload (pre ++ q :: rest)) = .err e :=
    scrapeQueries_err um pre q rest e hpre hobj herr
  refine ⟨h, fun rs hok => ?_⟩
  rw [h] at hok
  cases hok

/-- Witness for C7: the always-failing decoder on an envelope whose
second entry is object-shaped. -/
theorem c7_decode_failure_fatal_witness :
    ScrapeRecipes um1 (mkPayload ([qArr] ++ qObj :: [qNull])) =
      .err "json: cannot unmarshal object into Go struct field data.Items" :=
  (c7_decode_failure_fatal um1 [qArr] qObj [qNull]
      "json: cannot unmarshal object into Go struct field data.Items"
      (by
        intro u hu
        simp only [List.mem_singleton] at hu
        subst hu
        exact ⟨by decide, fun hx => absurd hx (by decide)⟩)
      (by decide) rfl).1

/-- C9: the first-byte inspection q.State.Data[0] carries no length
guard. When the data field of every query entry is non-empty the access is in
bounds and the loop never panics; an envelope containing an entry with
absent or zero-length data (all entries before it being well-formed)
makes the loop panic with an index-out-of-range runtime error rather
than return an error value. -/
theorem c9_first_byte_index_bounds :
    (∀ (um : DataDecoder) (p : payload),
        (∀ q ∈ queriesOf p, q.State.Data ≠ []) →
        ∀ m, ScrapeRecipes um p ≠ .panics m) ∧
    (∀ (um : DataDecoder) (pre : List PayloadQuery) (q : PayloadQuery)
        (rest : List PayloadQuery),
        (∀ u ∈ pre, u.State.Data ≠ [] ∧
          (objShaped u = true → ∃ d, um u.State.Data = .ok d)) →
        q.State.Data = [] →
        ScrapeRecipes um (mkPayload (pre ++ q :: rest)) =
          .panics "runtime error: index out of range [0] with length 0") :=
  ⟨fun um p h m => scrapeQueries_no_panic um (queriesOf p) h m,
   fun um pre q rest hpre hq => scrapeQueries_panic um pre q rest hpre hq⟩

/-- Witness for C9: the synthetic envelope never panics; inserting a
zero-length entry after a well-formed one panics. -/
theorem c9_first_byte_index_bounds_witness :
    ScrapeRecipes um0 demoPayload ≠ .panics "runtime error" ∧
      ScrapeRecipes um0 (mkPayload ([qArr] ++ qEmpty :: [qObj])) =
        .panics "runtime error: index out of range [0] with length 0" :=
  ⟨c9_first_byte_index_bounds.1 um0 demoPayload (by decide) "runtime error",
   c9_first_byte_index_bounds.2 um0 [qArr] qEmpty [qObj]
     (by
       intro u hu
       simp only [List.mem_singleton] at hu
       subst hu
       exact ⟨by decide, fun hx => absurd hx (by decide)⟩)
     rfl⟩

/-! ## Resolver lemmas -/

theorem entryFrame_refl : ∀ l : List IngredientYield, List.Forall₂ entryFramePred l l := by
  intro l
  induction l with
  | nil => exact .nil
  | cons iy l ih => exact .cons rfl ih

theorem yieldFrame_refl : ∀ l : List Yield, List.Forall₂ yieldFramePred l l := by
  intro l
  induction l with
  | nil => exact .nil
  | cons y l ih => exact .cons ⟨rfl, entryFrame_refl y.Ingredients⟩ ih

theorem recipeFrame_refl : ∀ l : Recipes, List.Forall₂ recipeFramePred l l := by
  intro l
  induction l with
  | nil => exact .nil
  | cons r l ih => exact .cons ⟨rfl, yieldFrame_refl r.Yields⟩ ih

theorem resolveIngredientYields_frame (ingreds : List Ingredient) :
    ∀ iys : List IngredientYield,
      List.Forall₂ entryFramePred iys (resolveIngredientYields ingreds iys).2 := by
  intro iys
  induction iys with
  | nil => exact .nil
  | cons iy rest ih =>
    cases hn : ingredientName iy.ID ingreds with
    | error e =>
      simp only [resolveIngredientYields, hn]
      exact .cons rfl (entryFrame_refl rest)
    | ok name =>
      simp only [resolveIngredientYields, hn]
      exact .cons rfl ih

theorem resolveYields_frame (ingreds : List Ingredient) :
    ∀ ys : List Yield,
      List.Forall₂ yieldFramePred ys (resolveYields ingreds ys).2 := by
  intro ys
  induction ys with
  | nil => exact .nil
  | cons y rest ih =>
    cases he : (resolveIngredientYields ingreds y.Ingredients).1 with
    | some e =>
      simp only [resolveYields, he]
      exact .cons ⟨rfl, resolveIngredientYields_frame ingreds y.Ingredients⟩
        (yieldFrame_refl rest)
    | none =>
      simp only [resolveYields, he]
      exact .cons ⟨rfl, resolveIngredientYields_frame ingreds y.Ingredients⟩ ih

theorem resolveIngredientYields_none (ingreds : List Ingredient) :
    ∀ (iys iys2 : List IngredientYield),
      resolveIngredientYields ingreds iys = (none, iys2) →
      List.Forall₂ (fun iy iy2 => ingredientName iy.ID ingreds = .ok iy2.ID)
        iys iys2 := by
  intro iys
  induction iys with
  | nil =>
    intro iys2 h
    simp only [resolveIngredientYields, Prod.mk.injEq] at h
    rw [← h.2]
    exact .nil
  | cons iy rest ih =>
    intro iys2 h
    cases hn : ingredientName iy.ID ingreds with
    | error e => simp [resolveIngredientYields, hn] at h
    | ok name =>
      simp only [resolveIngredientYields, hn, Prod.mk.injEq] at h
      obtain ⟨h1, h2⟩ := h
      rw [← h2]
      exact .cons hn (ih _ (by rw [← h1]))

theorem resolveYields_none (ingreds : List Ingredient) :
    ∀ (ys ys2 : List Yield),
      resolveYields ingreds ys = (none, ys2) →
      List.Forall₂ (fun y y2 =>
        List.Forall₂ (fun iy iy2 => ingredientName iy.ID ingreds = .ok iy2.ID)
          y.Ingredients y2.Ingredients) ys ys2 := by
  intro ys
  induction ys with
  | nil =>
    intro ys2 h
    simp only [resolveYields, Prod.mk.injEq] at h
    rw [← h.2]
    exact .nil
  | cons y rest ih =>
    intro ys2 h
    cases he : (resolveIngredientYields ingreds y.Ingredients).1 with
    | some e => simp [resolveYields, he] at h
    | none =>
      simp only [resolveYields, he, Prod.mk.injEq] at h
      obtain ⟨h1, h2⟩ := h
      rw [← h2]
      exact .cons (resolveIngredientYields_none ingreds y.Ingredients _
        (by rw [← he])) (ih _ (by rw [← h1]))

theorem YieldIDsToNames_none_map :
    ∀ (rs rs2 : Recipes),
      YieldIDsToNames rs = (none, rs2) → rs2 = rs.map resolveRecipe := by
  intro rs
  induction rs with
  | nil =>
    intro rs2 h
    simp only [YieldIDsToNames, Prod.mk.injEq] at h
    rw [← h.2]
    rfl
  | cons r rest ih =>
    intro rs2 h
    cases he : (resolveYields r.Ingredients r.Yields).1 with
    | some e => simp [YieldIDsToNames, he] at h
    | none =>
      simp only [YieldIDsToNames, he, Prod.mk.injEq] at h
      obtain ⟨h1, h2⟩ := h
      rw [← h2, List.map_cons]
      exact congrArg _ (ih _ (by rw [← h1]))

theorem YieldIDsToNames_none_forall :
    ∀ (rs rs2 : Recipes),
      YieldIDsToNames rs = (none, rs2) →
      List.Forall₂ (fun r r2 =>
        List.Forall₂ (fun y y2 =>
          List.Forall₂ (fun iy iy2 =>
            ingredientName iy.ID r.Ingredients = .ok iy2.ID)
            y.Ingredients y2.Ingredients) r.Yields r2.Yields) rs rs2 := by
  intro rs
  induction rs with
  | nil =>
    intro rs2 h
    simp only [YieldIDsToNames, Prod.mk.injEq] at h
    rw [← h.2]
    exact .nil
  | cons r rest ih =>
    intro rs2 h
    cases he : (resolveYields r.Ingredients r.Yields).1 with
    | some e => simp [YieldIDsToNames, he] at h
    | none =>
      simp only [YieldIDsToNames, he, Prod.mk.injEq] at h
      obtain ⟨h1, h2⟩ := h
      rw [← h2]
      exact .cons (resolveYields_none r.Ingredients r.Yields _ (by rw [← he]))
        (ih _ (by rw [← h1]))

theorem resolveIngredientYields_none_iff (ingreds : List Ingredient) :
    ∀ iys : List IngredientYield,
      (resolveIngredientYields ingreds iys).1 = none ↔
        ∀ iy ∈ iys, ∃ n, ingredientName iy.ID ingreds = .ok n := by
  intro iys
  induction iys with
  | nil => simp [resolveIngredientYields]
  | cons iy rest ih =>
    cases hn : ingredientName iy.ID ingreds with
    | error e =>
      simp [resolveIngredientYields, hn, List.forall_mem_cons]
    | ok name =>
      simp [resolveIngredientYields, hn, List.forall_mem_cons, ih]

theorem resolveYields_none_iff (ingreds : List Ingredient) :
    ∀ ys : List Yield,
      (resolveYields ingreds ys).1 = none ↔
        ∀ y ∈ ys, ∀ iy ∈ y.Ingredients,
          ∃ n, ingredientName iy.ID ingreds = .ok n := by
  intro ys
  induction ys with
  | nil => simp [resolveYields]
  | cons y rest ih =>
    cases he : (resolveIngredientYields ingreds y.Ingredients).1 with
    | some e =>
      have hnot : ¬ ∀ iy ∈ y.Ingredients, ∃ n, ingredientName iy.ID ingreds = .ok n := by
        intro hall
        have := (resolveIngredientYields_none_iff ingreds y.Ingredients).2 hall
        rw [he] at this
        cases this
      simp [resolveYields, he, List.forall_mem_cons, hnot]
    | none =>
      have hhead : ∀ iy ∈ y.Ingredients, ∃ n, ingredientName iy.ID ingreds = .ok n :=
        (resolveIngredientYields_none_iff ingreds y.Ingredients).1 he
      simp only [resolveYields, he, List.forall_mem_cons, ih]
      exact ⟨fun hrest => ⟨hhead, hrest⟩, fun hall => hall.2⟩

theorem YieldIDsToNames_none_iff :
    ∀ rs : Recipes,
      (YieldIDsToNames rs).1 = none ↔
        ∀ r ∈ rs, ∀ y ∈ r.Yields, ∀ iy ∈ y.Ingredients,
          ∃ n, ingredientName iy.ID r.Ingredients = .ok n := by
  intro rs
  induction rs with
  | nil => simp [YieldIDsToNames]
  | cons r rest ih =>
    cases he : (resolveYields r.Ingredients r.Yields).1 with
    | some e =>
      have hnot : ¬ ∀ y ∈ r.Yields, ∀ iy ∈ y.Ingredients,
          ∃ n, ingredientName iy.ID r.Ingredients = .ok n := by
        intro hall
        have := (resolveYields_none_iff r.Ingredients r.Yields).2 hall
        rw [he] at this
        cases this
      simp [YieldIDsToNames, he, List.forall_mem_cons, hnot]
    | none =>
      have hhead : ∀ y ∈ r.Yields, ∀ iy ∈ y.Ingredients,
          ∃ n, ingredientName iy.ID r.Ingredients = .ok n :=
        (resolveYields_none_iff r.Ingredients r.Yields).1 he
      simp only [YieldIDsToNames, he, List.forall_mem_cons, ih]
      exact ⟨fun hrest => ⟨hhead, hrest⟩, fun hall => hall.2⟩

theorem ingredientName_error_msg :
    ∀ (ingreds : List Ingredient) (id e : String),
      ingredientName id ingreds = .error e →
      e = "id " ++ id ++ " not found in ingredients list" := by
  intro ingreds
  induction ingreds with
  | nil =>
    intro id e h
    simp only [ingredientName, Except.error.injEq] at h
    exact h.symm
  | cons i rest ih =>
    intro id e h
    cases hc : (id == i.ID) with
    | true => simp [ingredientName, hc] at h
    | false =>
      simp only [ingredientName, hc, Bool.false_eq_true, if_false] at h
      exact ih id e h

theorem resolveIngredientYields_some (ingreds : List Ingredient) :
    ∀ (iys : List IngredientYield) (e : String),
      (resolveIngredientYields ingreds iys).1 = some e →
      ∃ iy ∈ iys, ingredientName iy.ID ingreds = .error e := by
  intro iys
  induction iys with
  | nil => intro e h; simp [resolveIngredientYields] at h
  | cons iy rest ih =>
    intro e h
    cases hn : ingredientName iy.ID ingreds with
    | error e2 =>
      simp only [resolveIngredientYields, hn, Option.some.injEq] at h
      exact ⟨iy, List.mem_cons_self iy rest, by rw [hn, h]⟩
    | ok name =>
      simp only [resolveIngredientYields, hn] at h
      obtain ⟨iy2, hmem, h2⟩ := ih e h
      exact ⟨iy2, List.mem_cons_of_mem iy hmem, h2⟩

theorem resolveYields_some (ingreds : List Ingredient) :
    ∀ (ys : List Yield) (e : String),
      (resolveYields ingreds ys).1 = some e →
      ∃ y ∈ ys, ∃ iy ∈ y.Ingredients, ingredientName iy.ID ingreds = .error e := by
  intro ys
  induction ys with
  | nil => intro e h; simp [resolveYields] at h
  | cons y rest ih =>
    intro e h
    cases he : (resolveIngredientYields ingreds y.Ingredients).1 with
    | some e2 =>
      simp only [resolveYields, he, Option.some.injEq] at h
      obtain ⟨iy, hmem, hiy⟩ := resolveIngredientYields_some ingreds y.Ingredients e2 he
      exact ⟨y, List.mem_cons_self y rest, iy, hmem, by rw [hiy, h]⟩
    | none =>
      simp only [resolveYields, he] at h
      obtain ⟨y2, hmem, hy2⟩ := ih e h
      exact ⟨y2, List.mem_cons_of_mem y hmem, hy2⟩

theorem YieldIDsToNames_some :
    ∀ (rs : Recipes) (e : String),
      (YieldIDsToNames rs).1 = some e →
      ∃ r ∈ rs, ∃ y ∈ r.Yields, ∃ iy ∈ y.Ingredients,
        ingredientName iy.ID r.Ingredients = .error e := by
  intro rs
  induction rs with
  | nil => intro e h; simp [YieldIDsToNames] at h
  | cons r rest ih =>
    intro e h
    cases he : (resolveYields r.Ingredients r.Yields).1 with
    | some e2 =>
      simp only [YieldIDsToNames, he, Option.some.injEq] at h
      obtain ⟨y, hymem, iy, himem, hiy⟩ :=
        resolveYields_some r.Ingredients r.Yields e2 he
      exact ⟨r, List.mem_cons_self r rest, y, hymem, iy, himem, by rw [hiy, h]⟩
    | none =>
      simp only [YieldIDsToNames, he] at h
      obtain ⟨r2, hmem, hr2⟩ := ih e h
      exact ⟨r2, List.mem_cons_of_mem r hmem, hr2⟩

theorem resolveIngredientYields_first_failure (ingreds : List Ingredient) :
    ∀ (pre : List IngredientYield) (bad : IngredientYield)
      (post : List IngredientYield) (e : String),
      (∀ iy ∈ pre, ∃ n, ingredientName iy.ID ingreds = .ok n) →
      ingredientName bad.ID ingreds = .error e →
      resolveIngredientYields ingreds (pre ++ bad :: post) =
        (some e, pre.map (resolveEntry ingreds) ++ bad :: post) := by
  intro pre
  induction pre with
  | nil =>
    intro bad post e _ hbad
    simp [resolveIngredientYields, hbad]
  | cons iy pre ih =>
    intro bad post e hpre hbad
    obtain ⟨n, hn⟩ := hpre iy (List.mem_cons_self iy pre)
    have hrec := ih bad post e
      (fun u hu => hpre u (List.mem_cons_of_mem iy hu)) hbad
    simp [resolveIngredientYields, hn, hrec, resolveEntry]

/-! ## Claim theorems: Yield Resolver -/

/-- C4: on a successful pass, the ID of every yield entry has been replaced by
the Name of the first Ingredient with that ID in the ingredient list of
that same recipe (ingredientName scans first-match, and the relation pairs
each output recipe with its own input recipe), and the whole output batch
is the recipe-wise image of resolveRecipe, a function of the single
owning recipe alone — so no lookup can read the ingredient list of
another recipe, even when two recipes in the batch share an ingredient ID with
different names. -/
theorem c4_resolution_scoped_lookup :
    ∀ (rs rs2 : Recipes),
      YieldIDsToNames rs = (none, rs2) →
      rs2 = rs.map resolveRecipe ∧
        List.Forall₂ (fun r r2 =>
          List.Forall₂ (fun y y2 =>
            List.Forall₂ (fun iy iy2 =>
              ingredientName iy.ID r.Ingredients = .ok iy2.ID)
              y.Ingredients y2.Ingredients) r.Yields r2.Yields) rs rs2 :=
  fun rs rs2 h =>
    ⟨YieldIDsToNames_none_map rs rs2 h, YieldIDsToNames_none_forall rs rs2 h⟩

/-- Witness for C4 on the scoping scenario: two recipes both own an
ingredient with ID i1, named Egg in one and Milk in the other; each
recipe resolves its yield against its own list. -/
theorem c4_resolution_scoped_lookup_witness :
    YieldIDsToNames scopeBatch = (none, scopeBatchResolved) ∧
      (scopeBatchResolved = scopeBatch.map resolveRecipe ∧
        List.Forall₂ (fun r r2 =>
          List.Forall₂ (fun y y2 =>
            List.Forall₂ (fun iy iy2 =>
              ingredientName iy.ID r.Ingredients = .ok iy2.ID)
              y.Ingredients y2.Ingredients) r.Yields r2.Yields)
          scopeBatch scopeBatchResolved) :=
  ⟨rfl, c4_resolution_scoped_lookup scopeBatch scopeBatchResolved rfl⟩

/-- C5: the pass returns an error exactly when the ID of some yield entry
has no match among the Ingredient.ID values of its owning recipe; the
error carries the unresolved identifier in the message of
ingredientName; and within the entry list of a yield resolution stops at the
first failing lookup, leaving entries before it rewritten (no rollback)
and the failing entry and everything after it untouched. -/
theorem c5_resolution_failure :
    (∀ rs : Recipes,
        (YieldIDsToNames rs).1 = none ↔
          ∀ r ∈ rs, ∀ y ∈ r.Yields, ∀ iy ∈ y.Ingredients,
            ∃ n, ingredientName iy.ID r.Ingredients = .ok n) ∧
    (∀ (rs : Recipes) (e : String),
        (YieldIDsToNames rs).1 = some e →
        ∃ r ∈ rs, ∃ y ∈ r.Yields, ∃ iy ∈ y.Ingredients,
          ingredientName iy.ID r.Ingredients = .error e ∧
            e = "id " ++ iy.ID ++ " not found in ingredients list") ∧
    (∀ (ingreds : List Ingredient) (pre : List IngredientYield)
        (bad : IngredientYield) (post : List IngredientYield) (e : String),
        (∀ iy ∈ pre, ∃ n, ingredientName iy.ID ingreds = .ok n) →
        ingredientName bad.ID ingreds = .error e →
        resolveIngredientYields ingreds (pre ++ bad :: post) =
          (some e, pre.map (resolveEntry ingreds) ++ bad :: post)) := by
  refine ⟨YieldIDsToNames_none_iff, ?_, resolveIngredientYields_first_failure⟩
  intro rs e h
  obtain ⟨r, hr, y, hy, iy, hiy, herr⟩ := YieldIDsToNames_some rs e h
  exact ⟨r, hr, y, hy, iy, hiy, herr,
    ingredientName_error_msg r.Ingredients iy.ID e herr⟩

/-- Witness for C5 on the failure scenario of the spec: a yield whose first
entry resolves to Egg and whose second references the absent i2; the
result names i2 and keeps the first entry rewritten. -/
theorem c5_resolution_failure_witness :
    resolveIngredientYields [ingredientRec "i1" "Egg"]
        ([iyRec "i1" 2.0 "pcs"] ++ iyRec "i2" 1.0 "g" :: []) =
      (some "id i2 not found in ingredients list",
        [iyRec "i1" 2.0 "pcs"].map (resolveEntry [ingredientRec "i1" "Egg"]) ++
          iyRec "i2" 1.0 "g" :: []) :=
  c5_resolution_failure.2.2 [ingredientRec "i1" "Egg"]
    [iyRec "i1" 2.0 "pcs"] (iyRec "i2" 1.0 "g") []
    "id i2 not found in ingredients list"
    (by
      intro iy hiy
      simp only [List.mem_singleton] at hiy
      subst hiy
      exact ⟨"Egg", rfl⟩)
    rfl

/-- C6: whether the pass succeeds or fails, the only field it can change
anywhere in the batch is IngredientYield.ID: every recipe keeps all its
fields except Yields intact (Ingredients included), every yield keeps its
serving count, and every entry keeps its Amount and Unit. -/
theorem c6_resolution_frame :
    ∀ rs : Recipes, List.Forall₂ recipeFramePred rs (YieldIDsToNames rs).2 := by
  intro rs
  induction rs with
  | nil => exact .nil
  | cons r rest ih =>
    cases he : (resolveYields r.Ingredients r.Yields).1 with
    | some e =>
      simp only [YieldIDsToNames, he]
      exact .cons ⟨rfl, resolveYields_frame r.Ingredients r.Yields⟩
        (recipeFrame_refl rest)
    | none =>
      simp only [YieldIDsToNames, he]
      exact .cons ⟨rfl, resolveYields_frame r.Ingredients r.Yields⟩ ih

/-- C10: YieldIDsToNames is not idempotent: on the two-recipe batch a
first pass succeeds, rewriting i1 to Egg and Milk, but a second pass on
the result fails because Egg is now looked up as an identifier; in
general a second pass on a successfully resolved batch succeeds exactly
when every resolved name itself occurs as an Ingredient.ID in the owning
recipe. -/
theorem c10_not_idempotent :
    ((YieldIDsToNames scopeBatch).1 = none ∧
      (YieldIDsToNames (YieldIDsToNames scopeBatch).2).1 =
        some "id Egg not found in ingredients list") ∧
    (∀ (rs rs2 : Recipes),
        YieldIDsToNames rs = (none, rs2) →
        ((YieldIDsToNames rs2).1 = none ↔
          ∀ r ∈ rs2, ∀ y ∈ r.Yields, ∀ iy ∈ y.Ingredients,
            ∃ n, ingredientName iy.ID r.Ingredients = .ok n)) :=
  ⟨⟨rfl, rfl⟩, fun _ rs2 _ => YieldIDsToNames_none_iff rs2⟩

/-- Witness for the general part of C10 at the resolved two-recipe batch. -/
theorem c10_not_idempotent_witness :
    (YieldIDsToNames scopeBatchResolved).1 = none ↔
      ∀ r ∈ scopeBatchResolved, ∀ y ∈ r.Yields, ∀ iy ∈ y.Ingredients,
        ∃ n, ingredientName iy.ID r.Ingredients = .ok n :=
  c10_not_idempotent.2 scopeBatch scopeBatchResolved rfl
